import Mathlib

set_option maxRecDepth 8000

/-!
Verification of the feedback batch-analysis job.

The program is a linear batch job: fetch feedback notes page by page,
build a prompt, summarize with a chat model, split the summary into
bounded chunks, and post them to a messaging channel.  Below, each
function of the source is embedded as an executable Lean definition:
strings become lists of characters, the paginated HTTP fetch becomes a
fuel-indexed loop over an abstract page source, and the effectful main
routine becomes a function producing the list of external calls it
makes together with its success flag.
-/

/-- Python whitespace characters recognized by str.strip and friends. -/
def pyIsSpace (c : Char) : Bool :=
  c = ' ' || c = '\t' || c = '\n' || c = '\r' || c = '\x0b' || c = '\x0c'

/-- Python str.strip: remove whitespace from both ends. -/
def pyStrip (s : List Char) : List Char :=
  ((s.dropWhile pyIsSpace).reverse.dropWhile pyIsSpace).reverse

/-- Python str.rfind restricted to a single character: index of the last
occurrence, or none (Python returns -1 in that case). -/
def rfind (c : Char) : List Char → Option Nat
  | [] => none
  | x :: xs =>
    match rfind c xs with
    | some p => some (p + 1)
    | none => if x = c then some 0 else none

/-- One iteration of the loop body of split_text_for_blocks: the chunk
that gets appended.  chunk = text[:max_len]; if the last newline of the
chunk sits at an index greater than 0, the chunk is cut there. -/
def takeChunk (max_len : Nat) (text : List Char) : List Char :=
  let chunk := text.take max_len
  match rfind '\n' chunk with
  | some last_newline => if 0 < last_newline then chunk.take last_newline else chunk
  | none => chunk

/-- The remaining text after one iteration:
text = text[len(chunk):].lstrip(newline). -/
def nextText (max_len : Nat) (text : List Char) : List Char :=
  (text.drop (takeChunk max_len text).length).dropWhile (fun c => c = '\n')

/-- The chunk texts produced by the while loop of split_text_for_blocks,
with explicit fuel bounding the number of iterations.  The loop guard is
`while text:`, so an empty text stops the loop. -/
def splitChunks (max_len : Nat) : Nat → List Char → List (List Char)
  | 0, _ => []
  | _ + 1, [] => []
  | fuel + 1, c :: cs =>
    takeChunk max_len (c :: cs) :: splitChunks max_len fuel (nextText max_len (c :: cs))

/-- The inner dict of a Slack block: has a type tag (mrkdwn) and text. -/
structure BlockText where
  btype : String
  text : List Char
deriving Repr, DecidableEq

/-- A Slack section block as built by split_text_for_blocks. -/
structure Block where
  btype : String
  text : BlockText
deriving Repr, DecidableEq

/-- The dict appended for each chunk. -/
def mkBlock (chunk : List Char) : Block :=
  { btype := "section", text := { btype := "mrkdwn", text := chunk } }

/-- split_text_for_blocks: split a message into Slack blocks.  In the
source, max_len defaults to 2900.  Fuel text.length suffices for any
max_len of at least one, because every iteration consumes at least one
character (proved below). -/
def split_text_for_blocks (max_len : Nat) (text : List Char) : List Block :=
  (splitChunks max_len text.length text).map mkBlock

/-- The chunk text carried by a block. -/
def blockText (b : Block) : List Char := b.text.text

/-- Fact: every chunk the loop emits is a prefix of the text. -/
theorem takeChunk_eq_take (max_len : Nat) (text : List Char) :
    ∃ k, takeChunk max_len text = text.take k := by
  cases h : rfind '\n' (text.take max_len) with
  | none => exact ⟨max_len, by simp [takeChunk, h]⟩
  | some p =>
    by_cases hp : 0 < p
    · exact ⟨min p max_len, by simp [takeChunk, h, hp, List.take_take]⟩
    · exact ⟨max_len, by simp [takeChunk, h, hp]⟩

theorem takeChunk_length_le (max_len : Nat) (text : List Char) :
    (takeChunk max_len text).length ≤ max_len := by
  cases h : rfind '\n' (text.take max_len) with
  | none => simp only [takeChunk, h, List.length_take]; omega
  | some p =>
    by_cases hp : 0 < p
    · simp only [takeChunk, h, hp, if_true, List.length_take]; omega
    · simp only [takeChunk, h, hp, if_false, List.length_take]; omega

theorem mem_splitChunks_length_le (max_len fuel : Nat) :
    ∀ (text c : List Char), c ∈ splitChunks max_len fuel text → c.length ≤ max_len := by
  induction fuel with
  | zero => intro text c hc; simp [splitChunks] at hc
  | succ fuel ih =>
    intro text c hc
    cases text with
    | nil => simp [splitChunks] at hc
    | cons x xs =>
      simp only [splitChunks, List.mem_cons] at hc
      rcases hc with rfl | hc
      · exact takeChunk_length_le _ _
      · exact ih _ _ hc

/-- Claim C1: for every input text and every maximum chunk length L, every
chunk produced by split_text_for_blocks has length at most L. -/
theorem splitTextForBlocks_length_bound (max_len : Nat) (text : List Char) :
    ∀ b ∈ split_text_for_blocks max_len text, (blockText b).length ≤ max_len := by
  intro b hb
  unfold split_text_for_blocks at hb
  rcases List.mem_map.mp hb with ⟨c, hc, rfl⟩
  exact mem_splitChunks_length_le _ _ _ _ hc

/-- Witness for C1 at a concrete text and bound. -/
theorem splitTextForBlocks_length_bound_witness :
    (blockText (mkBlock "ab".toList)).length ≤ 4 :=
  splitTextForBlocks_length_bound 4 ("ab\ncd".toList) (mkBlock ("ab".toList)) (by decide)

/-- The chunk taken by one iteration, concatenated with the rest of the
text, gives back the text: the loop only ever slices prefixes. -/
theorem takeChunk_append_drop (max_len : Nat) (text : List Char) :
    takeChunk max_len text ++ text.drop (takeChunk max_len text).length = text := by
  obtain ⟨k, hk⟩ := takeChunk_eq_take max_len text
  rw [hk, List.length_take]
  rcases Nat.le_total k text.length with h | h
  · rw [Nat.min_eq_left h, List.take_append_drop]
  · rw [Nat.min_eq_right h, List.take_of_length_le h, List.drop_length, List.append_nil]

/-- The non-whitespace content of a text, in order. -/
def nonWS (s : List Char) : List Char := s.filter (fun c => !(pyIsSpace c))

theorem nonWS_append (s t : List Char) : nonWS (s ++ t) = nonWS s ++ nonWS t :=
  List.filter_append s t

/-- Stripping leading newlines does not change non-whitespace content. -/
theorem nonWS_dropWhile_newline (s : List Char) :
    nonWS (s.dropWhile (fun c => c = '\n')) = nonWS s := by
  induction s with
  | nil => rfl
  | cons x xs ih =>
    by_cases hx : x = '\n'
    · subst hx
      rw [List.dropWhile_cons]
      simpa [nonWS, List.filter_cons, pyIsSpace] using ih
    · rw [List.dropWhile_cons]
      simp [hx]

/-- One loop iteration splits the non-whitespace content of the text into
that of the emitted chunk and that of the remaining text. -/
theorem nonWS_step (max_len : Nat) (text : List Char) :
    nonWS text = nonWS (takeChunk max_len text) ++ nonWS (nextText max_len text) := by
  conv_lhs => rw [← takeChunk_append_drop max_len text]
  rw [nonWS_append, nextText, nonWS_dropWhile_newline]

/-- With a positive bound, a nonempty text yields a nonempty chunk. -/
theorem takeChunk_ne_nil (max_len : Nat) (text : List Char)
    (hL : 1 ≤ max_len) (ht : text ≠ []) : takeChunk max_len text ≠ [] := by
  rw [← List.length_pos]
  have h1 : 0 < text.length := List.length_pos.mpr ht
  cases h : rfind '\n' (text.take max_len) with
  | none => simp only [takeChunk, h, List.length_take]; omega
  | some p =>
    by_cases hp : 0 < p
    · simp only [takeChunk, h, hp, if_true, List.length_take]; omega
    · simp only [takeChunk, h, hp, if_false, List.length_take]; omega

theorem dropWhile_length_le (p : Char → Bool) (l : List Char) :
    (l.dropWhile p).length ≤ l.length := by
  induction l with
  | nil => exact Nat.le_refl _
  | cons x xs ih =>
    rw [List.dropWhile_cons]
    by_cases hx : p x
    · simp only [hx, if_true]; exact Nat.le_trans ih (by simp)
    · simp [hx]

/-- Every iteration of the chunking loop consumes at least one character. -/
theorem nextText_length_lt (max_len : Nat) (text : List Char)
    (hL : 1 ≤ max_len) (ht : text ≠ []) :
    (nextText max_len text).length < text.length := by
  have hc : 0 < (takeChunk max_len text).length :=
    List.length_pos.mpr (takeChunk_ne_nil _ _ hL ht)
  have hdw := dropWhile_length_le (fun c => c = '\n')
      (text.drop (takeChunk max_len text).length)
  have hdrop : (text.drop (takeChunk max_len text).length).length
      = text.length - (takeChunk max_len text).length := List.length_drop _ _
  have h1 : 0 < text.length := List.length_pos.mpr ht
  unfold nextText
  omega

/-- Any fuel of at least text.length computes the same chunk list. -/
theorem splitChunks_fuel_invariant (max_len : Nat) (hL : 1 ≤ max_len) :
    ∀ n m (text : List Char), text.length ≤ n → n ≤ m →
      splitChunks max_len n text = splitChunks max_len m text := by
  intro n
  induction n with
  | zero =>
    intro m text hlen _
    have he : text = [] := List.length_eq_zero.mp (Nat.le_zero.mp hlen)
    subst he
    cases m <;> rfl
  | succ n ih =>
    intro m text hlen hnm
    cases m with
    | zero => omega
    | succ m' =>
      cases text with
      | nil => rfl
      | cons c cs =>
        simp only [splitChunks]
        congr 1
        apply ih
        · have hlt := nextText_length_lt max_len (c :: cs) hL (List.cons_ne_nil c cs)
          have hlc : (c :: cs).length ≤ n + 1 := hlen
          omega
        · omega

/-- Claim C9: for L at least 1, the chunking loop terminates: each
iteration consumes at least one character, fuel text.length suffices, the
loop is a no-op on empty text, and it runs at least once on nonempty text. -/
theorem splitChunks_termination (max_len : Nat) (hL : 1 ≤ max_len) :
    (∀ text : List Char, text ≠ [] → (nextText max_len text).length < text.length) ∧
    (∀ (text : List Char) (fuel : Nat), text.length ≤ fuel →
      splitChunks max_len fuel text = splitChunks max_len text.length text) ∧
    (∀ fuel, splitChunks max_len fuel ([] : List Char) = []) ∧
    (∀ (text : List Char) (fuel : Nat), text ≠ [] → text.length ≤ fuel →
      splitChunks max_len fuel text ≠ []) := by
  refine ⟨fun t ht => nextText_length_lt _ _ hL ht, ?_, ?_, ?_⟩
  · intro t fuel h
    exact (splitChunks_fuel_invariant max_len hL t.length fuel t (Nat.le_refl _) h).symm
  · intro fuel; cases fuel <;> rfl
  · intro t fuel ht hlen
    cases t with
    | nil => exact absurd rfl ht
    | cons c cs =>
      cases fuel with
      | zero => simp at hlen
      | succ f => simp [splitChunks]

/-- Witness for C9 at concrete inputs. -/
theorem splitChunks_termination_witness :
    (nextText 2900 "a\nb".toList).length < ("a\nb".toList).length :=
  (splitChunks_termination 2900 (by decide)).1 "a\nb".toList (by decide)

/-- Concatenating the chunk texts preserves non-whitespace content. -/
theorem splitChunks_join_nonWS (max_len : Nat) (hL : 1 ≤ max_len) :
    ∀ (fuel : Nat) (text : List Char), text.length ≤ fuel →
      ((splitChunks max_len fuel text).map nonWS).flatten = nonWS text := by
  intro fuel
  induction fuel with
  | zero =>
    intro text hlen
    have he : text = [] := List.length_eq_zero.mp (Nat.le_zero.mp hlen)
    subst he; rfl
  | succ fuel ih =>
    intro text hlen
    cases text with
    | nil => rfl
    | cons c cs =>
      simp only [splitChunks, List.map_cons, List.flatten_cons]
      rw [ih]
      · exact (nonWS_step max_len (c :: cs)).symm
      · have hlt := nextText_length_lt max_len (c :: cs) hL (List.cons_ne_nil c cs)
        have hlc : (c :: cs).length ≤ fuel + 1 := hlen
        omega

/-- Joining pieces with a separator in between, as in the claim about
reinserting a single newline between consecutive chunks. -/
def joinSep (sep : List Char) : List (List Char) → List Char
  | [] => []
  | [x] => x
  | x :: y :: xs => x ++ sep ++ joinSep sep (y :: xs)

theorem nonWS_joinSep_newline (l : List (List Char)) :
    nonWS (joinSep ['\n'] l) = (l.map nonWS).flatten := by
  induction l with
  | nil => rfl
  | cons x xs ih =>
    cases xs with
    | nil => simp [joinSep]
    | cons y ys =>
      simp only [joinSep, List.map_cons, List.flatten_cons]
      rw [nonWS_append, nonWS_append, ih]
      have hnl : nonWS ['\n'] = [] := by decide
      rw [hnl]
      simp [List.flatten_cons]

/-- Claim C2: joining the produced chunks with a single newline between
consecutive chunks preserves the non-whitespace content of the text:
nothing outside whitespace is lost, duplicated or reordered. -/
theorem splitTextForBlocks_reconstruction (max_len : Nat) (hL : 1 ≤ max_len)
    (text : List Char) :
    nonWS (joinSep ['\n'] ((split_text_for_blocks max_len text).map blockText))
      = nonWS text := by
  have hmap : (split_text_for_blocks max_len text).map blockText
      = splitChunks max_len text.length text := by
    unfold split_text_for_blocks
    rw [List.map_map]
    have hid : blockText ∘ mkBlock = id := funext fun c => rfl
    rw [hid, List.map_id]
  rw [hmap, nonWS_joinSep_newline,
    splitChunks_join_nonWS max_len hL text.length text (Nat.le_refl _)]

/-- Witness for C2 at a concrete text. -/
theorem splitTextForBlocks_reconstruction_witness :
    nonWS (joinSep ['\n']
        ((split_text_for_blocks 2900 "hello\nworld  today".toList).map blockText))
      = nonWS "hello\nworld  today".toList :=
  splitTextForBlocks_reconstruction 2900 (by decide) _

theorem splitChunks_mem_ne_nil (max_len : Nat) (hL : 1 ≤ max_len) :
    ∀ (fuel : Nat) (text c : List Char), c ∈ splitChunks max_len fuel text → c ≠ [] := by
  intro fuel
  induction fuel with
  | zero => intro text c hc; simp [splitChunks] at hc
  | succ fuel ih =>
    intro text c hc
    cases text with
    | nil => simp [splitChunks] at hc
    | cons x xs =>
      simp only [splitChunks, List.mem_cons] at hc
      rcases hc with rfl | hc
      · exact takeChunk_ne_nil _ _ hL (List.cons_ne_nil x xs)
      · exact ih _ _ hc

/-- Claim C10: for a nonempty text and bound at least 1, every emitted
block carries a nonempty chunk. -/
theorem splitTextForBlocks_chunks_nonempty (max_len : Nat) (text : List Char)
    (hL : 1 ≤ max_len) (ht : text ≠ []) :
    ∀ b ∈ split_text_for_blocks max_len text, blockText b ≠ [] := by
  intro b hb
  unfold split_text_for_blocks at hb
  rcases List.mem_map.mp hb with ⟨c, hc, rfl⟩
  exact splitChunks_mem_ne_nil max_len hL _ _ _ hc

/-- Witness for C10 at a concrete text. -/
theorem splitTextForBlocks_chunks_nonempty_witness :
    blockText (mkBlock "hi".toList) ≠ [] :=
  splitTextForBlocks_chunks_nonempty 2900 "hi".toList (by decide) (by decide)
    (mkBlock "hi".toList) (by decide)

/-- When rfind misses, the character occurs nowhere. -/
theorem rfind_none_spec (c : Char) : ∀ s : List Char, rfind c s = none →
    ∀ j : Nat, s[j]? ≠ some c := by
  intro s
  induction s with
  | nil => intro _ j; simp
  | cons x xs ih =>
    intro h j
    simp only [rfind] at h
    cases hr : rfind c xs with
    | some q => rw [hr] at h; simp at h
    | none =>
      rw [hr] at h
      by_cases hx : x = c
      · rw [if_pos hx] at h; simp at h
      · cases j with
        | zero => simp [hx]
        | succ j' => simp only [List.getElem?_cons_succ]; exact ih hr j'

/-- When rfind hits, it returns the position of the LAST occurrence. -/
theorem rfind_some_spec (c : Char) : ∀ (s : List Char) (p : Nat), rfind c s = some p →
    s[p]? = some c ∧ ∀ j, p < j → s[j]? ≠ some c := by
  intro s
  induction s with
  | nil => intro p h; simp [rfind] at h
  | cons x xs ih =>
    intro p h
    simp only [rfind] at h
    cases hr : rfind c xs with
    | some q =>
      rw [hr] at h
      have hp : p = q + 1 := (Option.some.inj h).symm
      subst hp
      obtain ⟨h1, h2⟩ := ih q hr
      refine ⟨by simpa using h1, ?_⟩
      intro j hj
      cases j with
      | zero => omega
      | succ j' =>
        simp only [List.getElem?_cons_succ]
        exact h2 j' (by omega)
    | none =>
      rw [hr] at h
      by_cases hx : x = c
      · rw [if_pos hx] at h
        have hp : p = 0 := (Option.some.inj h).symm
        subst hp
        refine ⟨by simp [hx], ?_⟩
        intro j hj
        cases j with
        | zero => omega
        | succ j' =>
          simp only [List.getElem?_cons_succ]
          exact rfind_none_spec c xs hr j'
      · rw [if_neg hx] at h; exact absurd h (by simp)

/-- Any occurrence forces rfind to hit, at that index or later. -/
theorem rfind_ge_of_mem (c : Char) : ∀ (s : List Char) (i : Nat), s[i]? = some c →
    ∃ p, rfind c s = some p ∧ i ≤ p := by
  intro s
  induction s with
  | nil => intro i h; simp at h
  | cons x xs ih =>
    intro i h
    cases i with
    | zero =>
      have hx : x = c := by simpa using h
      cases hr : rfind c xs with
      | some q => exact ⟨q + 1, by simp [rfind, hr], by omega⟩
      | none => exact ⟨0, by simp [rfind, hr, hx], Nat.le_refl 0⟩
    | succ i' =>
      have h' : xs[i']? = some c := by simpa using h
      obtain ⟨q, hq, hiq⟩ := ih i' h'
      exact ⟨q + 1, by simp [rfind, hq], by omega⟩

theorem rfind_append_some (c : Char) (xs ys : List Char) (p : Nat)
    (h : rfind c ys = some p) : rfind c (xs ++ ys) = some (xs.length + p) := by
  induction xs with
  | nil => simpa using h
  | cons x xs ih =>
    rw [List.cons_append]
    simp only [rfind, ih]
    simp only [List.length_cons, Option.some.injEq]
    omega

theorem rfind_append_none (c : Char) (xs ys : List Char)
    (h : rfind c ys = none) : rfind c (xs ++ ys) = rfind c xs := by
  induction xs with
  | nil => simpa using h
  | cons x xs ih =>
    rw [List.cons_append]
    simp only [rfind, ih]

theorem rfind_replicate_ne (c a : Char) (h : c ≠ a) (k : Nat) :
    rfind c (List.replicate k a) = none := by
  induction k with
  | zero => rfl
  | succ k ih =>
    rw [List.replicate_succ]
    simp only [rfind, ih]
    rw [if_neg (fun hh => h hh.symm)]

theorem dropWhile_replicate_of_not (p : Char → Bool) (a : Char) (h : p a = false) (k : Nat) :
    (List.replicate k a).dropWhile p = List.replicate k a := by
  cases k with
  | zero => rfl
  | succ k => rw [List.replicate_succ, List.dropWhile_cons, h]; simp

/-- The specific 3000-character input of the claim: its only newline is at
position 1500. -/
def exampleText : List Char :=
  List.replicate 1500 'a' ++ ['\n'] ++ List.replicate 1499 'b'

theorem exampleText_length : exampleText.length = 3000 := by
  rw [exampleText]
  simp only [List.length_append, List.length_replicate, List.length_singleton]

theorem exampleText_take2900 :
    exampleText.take 2900 =
      List.replicate 1500 'a' ++ ['\n'] ++ List.replicate 1399 'b' := by
  rw [exampleText, List.take_append_eq_append_take]
  have h1 : (List.replicate 1500 'a' ++ ['\n']).take 2900
      = List.replicate 1500 'a' ++ ['\n'] :=
    List.take_of_length_le (by
      simp only [List.length_append, List.length_replicate, List.length_singleton]
      norm_num)
  have h2 : 2900 - (List.replicate 1500 'a' ++ ['\n']).length = 1399 := by
    simp only [List.length_append, List.length_replicate, List.length_singleton]
  rw [h1, h2, List.take_replicate, Nat.min_eq_left (by norm_num : (1399:Nat) ≤ 1499)]

theorem exampleText_rfind :
    rfind '\n' (exampleText.take 2900) = some 1500 := by
  rw [exampleText_take2900]
  rw [rfind_append_none '\n' _ _ (rfind_replicate_ne '\n' 'b' (by decide) 1399)]
  rw [rfind_append_some '\n' _ _ 0 (by decide)]
  simp only [List.length_replicate, Nat.add_zero]

theorem exampleText_chunk :
    takeChunk 2900 exampleText = List.replicate 1500 'a' := by
  have h0 : (0:Nat) < 1500 := by norm_num
  simp only [takeChunk, exampleText_rfind, h0, if_true]
  rw [exampleText_take2900, List.take_append_eq_append_take]
  have ha : (List.replicate 1500 'a' ++ ['\n']).take 1500 = List.replicate 1500 'a' := by
    rw [List.take_append_eq_append_take, List.take_replicate, List.length_replicate]
    norm_num
  have hb : 1500 - (List.replicate 1500 'a' ++ ['\n']).length = 0 := by
    simp only [List.length_append, List.length_replicate, List.length_singleton]
  rw [ha, hb, List.take_zero, List.append_nil]

theorem exampleText_next :
    nextText 2900 exampleText = List.replicate 1499 'b' := by
  rw [nextText, exampleText_chunk, List.length_replicate]
  have hd : exampleText.drop 1500 = '\n' :: List.replicate 1499 'b' := by
    rw [exampleText]
    rw [List.drop_append_eq_append_drop]
    have h1 : (List.replicate 1500 'a' ++ ['\n']).drop 1500 = ['\n'] := by
      rw [List.drop_append_eq_append_drop, List.drop_replicate, List.length_replicate]
      norm_num
    have h2 : 1500 - (List.replicate 1500 'a' ++ ['\n']).length = 0 := by
      simp only [List.length_append, List.length_replicate, List.length_singleton]
    rw [h1, h2, List.drop_zero, List.singleton_append]
  rw [hd, List.dropWhile_cons]
  rw [if_pos (by decide)]
  exact dropWhile_replicate_of_not _ 'b' (by decide) 1499

theorem repB_chunk : takeChunk 2900 (List.replicate 1499 'b') = List.replicate 1499 'b' := by
  have hc : (List.replicate 1499 'b').take 2900 = List.replicate 1499 'b' :=
    List.take_of_length_le (by rw [List.length_replicate]; norm_num)
  simp only [takeChunk, hc, rfind_replicate_ne '\n' 'b' (by decide) 1499]

theorem repB_next : nextText 2900 (List.replicate 1499 'b') = [] := by
  rw [nextText, repB_chunk, List.length_replicate]
  have hz : (List.replicate 1499 'b').drop 1499 = [] := by
    rw [List.drop_replicate]
    norm_num
  rw [hz]
  rfl

/-- On a nonempty text with sufficient fuel, the loop runs its body once
and continues with exactly enough fuel for the remaining text. -/
theorem splitChunks_step (max_len : Nat) (hL : 1 ≤ max_len) (t : List Char)
    (ht : t ≠ []) (fuel : Nat) (hf : t.length ≤ fuel) :
    splitChunks max_len fuel t
      = takeChunk max_len t
        :: splitChunks max_len (nextText max_len t).length (nextText max_len t) := by
  cases t with
  | nil => exact absurd rfl ht
  | cons c cs =>
    cases fuel with
    | zero => simp at hf
    | succ f =>
      simp only [splitChunks]
      congr 1
      have hlt := nextText_length_lt max_len (c :: cs) hL (List.cons_ne_nil c cs)
      have hle : (nextText max_len (c :: cs)).length ≤ f := by
        have hcc : (c :: cs).length ≤ f + 1 := hf
        omega
      exact (splitChunks_fuel_invariant max_len hL (nextText max_len (c :: cs)).length f
        (nextText max_len (c :: cs)) (Nat.le_refl _) hle).symm

theorem exampleText_chunks :
    splitChunks 2900 exampleText.length exampleText
      = [List.replicate 1500 'a', List.replicate 1499 'b'] := by
  rw [splitChunks_step 2900 (by norm_num) exampleText
      (by rw [← List.length_pos, exampleText_length]; norm_num)
      exampleText.length (Nat.le_refl _)]
  rw [exampleText_next, exampleText_chunk, List.length_replicate]
  rw [splitChunks_step 2900 (by norm_num) (List.replicate 1499 'b')
      (by rw [← List.length_pos, List.length_replicate]; norm_num)
      1499 (le_of_eq (by rw [List.length_replicate]))]
  rw [repB_next, repB_chunk]
  rfl

/-- Claim C5: whenever the candidate text.take L has a newline at a
position strictly greater than 0, the emitted chunk is the candidate cut
at the LAST newline; in particular on the 3000-character example whose
only newline sits at position 1500 and with bound 2900, the first chunk
is the first 1500 characters, not 2900. -/
theorem splitTextForBlocks_newline_pref :
    (∀ (max_len : Nat) (text : List Char) (i : Nat),
        0 < i → (text.take max_len)[i]? = some '\n' →
        ∃ p, 0 < p ∧ (text.take max_len)[p]? = some '\n' ∧
          (∀ j : Nat, p < j → (text.take max_len)[j]? ≠ some '\n') ∧
          takeChunk max_len text = (text.take max_len).take p) ∧
    ((split_text_for_blocks 2900 exampleText).map blockText
      = [List.replicate 1500 'a', List.replicate 1499 'b']) ∧
    (List.replicate 1500 'a').length = 1500 ∧ exampleText.length = 3000 := by
  refine ⟨?_, ?_, by rw [List.length_replicate], exampleText_length⟩
  · intro max_len text i hi hins
    obtain ⟨p, hp, hip⟩ := rfind_ge_of_mem '\n' (text.take max_len) i hins
    obtain ⟨h1, h2⟩ := rfind_some_spec '\n' (text.take max_len) p hp
    have hp0 : 0 < p := by omega
    refine ⟨p, hp0, h1, h2, ?_⟩
    simp only [takeChunk, hp, hp0, if_true]
  · rw [split_text_for_blocks, exampleText_chunks]
    rfl

/-- Witness for C5 at the concrete 3000-character example. -/
theorem splitTextForBlocks_newline_pref_witness :
    ∃ p, 0 < p ∧ (exampleText.take 2900)[p]? = some '\n' ∧
      (∀ j : Nat, p < j → (exampleText.take 2900)[j]? ≠ some '\n') ∧
      takeChunk 2900 exampleText = (exampleText.take 2900).take p :=
  splitTextForBlocks_newline_pref.1 2900 exampleText 1500 (by norm_num)
    (by
      rw [exampleText_take2900]
      rw [List.getElem?_append_left (by
        simp only [List.length_append, List.length_replicate, List.length_singleton]
        norm_num)]
      rw [List.getElem?_append_right (le_of_eq (by rw [List.length_replicate]))]
      rw [List.length_replicate]
      rfl)

/-- A feedback note as used by the source: a dict from which only the
content and title keys are read (either may be absent). -/
structure Note where
  content : Option String
  title : Option String
deriving Repr, DecidableEq

/-- Python truthiness of note.get results: None and the empty string are
falsy, every other string is truthy. -/
def pyTruthy : Option String → Bool
  | none => false
  | some s => if s = "" then false else true

/-- The Python `or` between two note.get results. -/
def pyOr (a b : Option String) : Option String :=
  if pyTruthy a then a else b

/-- content = note.get("content") or note.get("title") or "". -/
def noteContent (note : Note) : String :=
  match pyOr (pyOr note.content note.title) (some "") with
  | some s => s
  | none => ""

/-- The summary line appended for one note: dash space content.strip(). -/
def noteLine (note : Note) : List Char :=
  '-' :: ' ' :: pyStrip (noteContent note).toList

/-- The fixed introductory sentence, stating the note count. -/
def promptIntro (n : Nat) : List Char :=
  ("You are a product manager assistant analyzing " ++ toString n
    ++ " pieces of product feedback from the last two weeks. "
    ++ "Identify key themes, recurring problems, user emotions, and prioritized recommendations for product improvements.\n\n"
    ++ "Feedback summary list:\n").toList

/-- prepare_analysis_prompt: the intro followed by the newline-joined
summary lines. -/
def prepare_analysis_prompt (notes : List Note) : List Char :=
  promptIntro notes.length ++ joinSep ['\n'] (notes.map noteLine)

theorem data_eq_nil_iff (s : String) : s.data = [] ↔ s = "" := by
  constructor
  · intro h; apply String.ext; simpa using h
  · intro h; subst h; rfl

def strOrEmpty : Option String → List Char
  | some s => s.toList
  | none => []

/-- The selection rule in the words of the claim: the content if it is
non-empty, else the title if that is non-empty, else the empty string. -/
def specSelect (n : Note) : List Char :=
  if strOrEmpty n.content ≠ [] then strOrEmpty n.content
  else if strOrEmpty n.title ≠ [] then strOrEmpty n.title
  else []

/-- A summary line in the words of the claim: a dash-space prefixed line
containing the selected text with surrounding whitespace trimmed. -/
def specNoteLine (n : Note) : List Char :=
  '-' :: ' ' :: pyStrip (specSelect n)

theorem noteLine_eq_spec (n : Note) : noteLine n = specNoteLine n := by
  rcases n with ⟨c, t⟩
  cases c with
  | some cs =>
    by_cases hcs : cs = ""
    · subst hcs
      cases t with
      | some ts =>
        by_cases hts : ts = ""
        · subst hts; rfl
        · simp [noteLine, specNoteLine, noteContent, pyOr, pyTruthy, specSelect,
            strOrEmpty, data_eq_nil_iff, hts]
      | none => rfl
    · simp [noteLine, specNoteLine, noteContent, pyOr, pyTruthy, specSelect,
        strOrEmpty, data_eq_nil_iff, hcs]
  | none =>
    cases t with
    | some ts =>
      by_cases hts : ts = ""
      · subst hts; rfl
      · simp [noteLine, specNoteLine, noteContent, pyOr, pyTruthy, specSelect,
          strOrEmpty, data_eq_nil_iff, hts]
    | none => rfl

/-- Counterexample to C6 as stated: the note with both fields absent does
NOT render as an empty line; its line is dash space. -/
theorem prepare_prompt_empty_note_counterexample :
    prepare_analysis_prompt [{ content := none, title := none }]
        ≠ promptIntro 1 ++ [] ∧
    prepare_analysis_prompt [{ content := none, title := none }]
        = promptIntro 1 ++ ('-' :: ' ' :: []) := by
  constructor
  · decide
  · decide

/-- Claim C6 as amended: each note renders as a dash-space prefixed line
holding its content if non-empty, else its title if non-empty, else the
empty string, trimmed, joined by newlines under the count-bearing intro;
a note with both fields empty or absent renders as the bare dash-space
line, and rendering is total (never an error). -/
theorem prepare_prompt_spec :
    (∀ notes : List Note,
      prepare_analysis_prompt notes
        = promptIntro notes.length ++ joinSep ['\n'] (notes.map specNoteLine)) ∧
    noteLine { content := none, title := none } = '-' :: ' ' :: [] ∧
    noteLine { content := some "", title := some "login page crashes" }
      = '-' :: ' ' :: "login page crashes".toList ∧
    noteLine { content := some "  fix search  ", title := none }
      = '-' :: ' ' :: "fix search".toList := by
  refine ⟨?_, by decide, by decide, by decide⟩
  intro notes
  have hf : noteLine = specNoteLine := funext noteLine_eq_spec
  rw [prepare_analysis_prompt, hf]

/-- The module-level constants of the source. -/
def PRODUCTBOARD_API_NOTES_URL : String := "https://api.productboard.com/notes"

def PRODUCTBOARD_API_VERSION : String := "1"

/-- The configuration assembled at import time.  The channel identifier
is read with a non-raising lookup and may be absent. -/
structure Config where
  slack_bot_token : String
  productboard_api_token : String
  product_team_channel : Option String
  openai_api_key : String
deriving Repr, DecidableEq

/-- The module-level configuration reads, in source order: a raising
env lookup for SLACK_BOT_TOKEN, PRODUCTBOARD_API_TOKEN and
OPENAI_API_KEY (a missing one raises KeyError, modelled as an error
naming the key, before any network call can happen), and a non-raising
.get for PRODUCT_TEAM_CHANNEL. -/
def loadConfig (env : String → Option String) : Except String Config :=
  match env "SLACK_BOT_TOKEN" with
  | none => Except.error "SLACK_BOT_TOKEN"
  | some sbt =>
    match env "PRODUCTBOARD_API_TOKEN" with
    | none => Except.error "PRODUCTBOARD_API_TOKEN"
    | some pbt =>
      let channel := env "PRODUCT_TEAM_CHANNEL"
      match env "OPENAI_API_KEY" with
      | none => Except.error "OPENAI_API_KEY"
      | some oak =>
        Except.ok { slack_bot_token := sbt, productboard_api_token := pbt,
                    product_team_channel := channel, openai_api_key := oak }

/-- An environment holding the three credentials and no channel id. -/
def envNoChannel : String → Option String := fun k =>
  if k = "SLACK_BOT_TOKEN" then some "xoxb-token"
  else if k = "PRODUCTBOARD_API_TOKEN" then some "pb-token"
  else if k = "OPENAI_API_KEY" then some "sk-token"
  else none

/-- Counterexample to C4 as stated: with the channel identifier missing
and the three credentials present, startup does NOT abort: loadConfig
succeeds, with the channel recorded as absent. -/
theorem loadConfig_missing_channel_counterexample :
    envNoChannel "PRODUCT_TEAM_CHANNEL" = none ∧
    loadConfig envNoChannel
      = Except.ok { slack_bot_token := "xoxb-token", productboard_api_token := "pb-token",
                    product_team_channel := none, openai_api_key := "sk-token" } := by
  constructor
  · rfl
  · rfl

/-- Claim C4 as amended: startup reads three required credentials and one
optional channel identifier; it aborts (before anything else can run, in
particular before any network call) exactly when one of the three
required credentials is missing, while a missing channel identifier does
not abort. -/
theorem loadConfig_required_credentials :
    ∀ env : String → Option String,
      (∃ cfg, loadConfig env = Except.ok cfg) ↔
        ((env "SLACK_BOT_TOKEN").isSome = true ∧
         (env "PRODUCTBOARD_API_TOKEN").isSome = true ∧
         (env "OPENAI_API_KEY").isSome = true) := by
  intro env
  cases h1 : env "SLACK_BOT_TOKEN" <;> cases h2 : env "PRODUCTBOARD_API_TOKEN" <;>
    cases h3 : env "OPENAI_API_KEY" <;> simp [loadConfig, h1, h2, h3]

/-- The page size hard-coded in fetch_feedback_notes. -/
def page_limit : Nat := 100

/-- The query parameters of one notes request. -/
structure FetchParams where
  pageLimit : Nat
  pageOffset : Nat
  last : String
deriving Repr, DecidableEq

/-- The lookback filter string sent on every request. -/
def lastParam (days : Nat) : String := toString days ++ "d"

/-- The while-True pagination loop of fetch_feedback_notes over an
abstract page source, with fuel bounding the number of requests; it
returns the issued requests in order and the accumulated notes.  The
page limit is 100, the offset starts at 0 and grows by 100, and the loop
breaks when a page has fewer than 100 records. -/
def fetchPages (source : FetchParams → List Note) (days : Nat) :
    Nat → Nat → List FetchParams × List Note
  | 0, _ => ([], [])
  | fuel + 1, page_offset =>
    let params : FetchParams :=
      { pageLimit := 100, pageOffset := page_offset, last := lastParam days }
    let batch := source params
    if batch.length < 100 then ([params], batch)
    else
      let rest := fetchPages source days fuel (page_offset + 100)
      (params :: rest.1, batch ++ rest.2)

/-- fetch_feedback_notes: run the pagination loop from offset 0. -/
def fetch_feedback_notes (source : FetchParams → List Note) (days fuel : Nat) :
    List FetchParams × List Note :=
  fetchPages source days fuel 0

theorem fetchPages_stop (source : FetchParams → List Note) (days fuel off : Nat)
    (h : (source { pageLimit := 100, pageOffset := off, last := lastParam days }).length < 100) :
    fetchPages source days (fuel + 1) off
      = ([{ pageLimit := 100, pageOffset := off, last := lastParam days }],
         source { pageLimit := 100, pageOffset := off, last := lastParam days }) := by
  simp only [fetchPages]
  rw [if_pos h]

theorem fetchPages_go (source : FetchParams → List Note) (days fuel off : Nat)
    (h : ¬ (source { pageLimit := 100, pageOffset := off, last := lastParam days }).length < 100) :
    fetchPages source days (fuel + 1) off
      = (({ pageLimit := 100, pageOffset := off, last := lastParam days } : FetchParams)
            :: (fetchPages source days fuel (off + 100)).1,
         source { pageLimit := 100, pageOffset := off, last := lastParam days }
            ++ (fetchPages source days fuel (off + 100)).2) := by
  simp only [fetchPages]
  rw [if_neg h]

/-- Claim C3: a source whose pages at offsets 0, 100, 200 have sizes 100,
100, 37 makes the fetcher issue exactly those three requests, each with
the same lookback filter, and return the 237 records in page order; and
a source whose first page is short causes exactly one request. -/
theorem fetch_pagination :
    (∀ (days fuel : Nat) (source : FetchParams → List Note),
      3 ≤ fuel →
      (source { pageLimit := 100, pageOffset := 0, last := lastParam days }).length = 100 →
      (source { pageLimit := 100, pageOffset := 100, last := lastParam days }).length = 100 →
      (source { pageLimit := 100, pageOffset := 200, last := lastParam days }).length = 37 →
      fetch_feedback_notes source days fuel =
        ([{ pageLimit := 100, pageOffset := 0, last := lastParam days },
          { pageLimit := 100, pageOffset := 100, last := lastParam days },
          { pageLimit := 100, pageOffset := 200, last := lastParam days }],
         source { pageLimit := 100, pageOffset := 0, last := lastParam days }
           ++ (source { pageLimit := 100, pageOffset := 100, last := lastParam days }
             ++ source { pageLimit := 100, pageOffset := 200, last := lastParam days })) ∧
      (fetch_feedback_notes source days fuel).2.length = 237) ∧
    (∀ (days fuel : Nat) (source : FetchParams → List Note),
      1 ≤ fuel →
      (source { pageLimit := 100, pageOffset := 0, last := lastParam days }).length < 100 →
      fetch_feedback_notes source days fuel =
        ([{ pageLimit := 100, pageOffset := 0, last := lastParam days }],
         source { pageLimit := 100, pageOffset := 0, last := lastParam days })) := by
  constructor
  · intro days fuel source h3 hp0 hp1 hp2
    obtain ⟨k, rfl⟩ : ∃ k, fuel = k + 3 := ⟨fuel - 3, by omega⟩
    have hmain : fetch_feedback_notes source days (k + 3) =
        ([{ pageLimit := 100, pageOffset := 0, last := lastParam days },
          { pageLimit := 100, pageOffset := 100, last := lastParam days },
          { pageLimit := 100, pageOffset := 200, last := lastParam days }],
         source { pageLimit := 100, pageOffset := 0, last := lastParam days }
           ++ (source { pageLimit := 100, pageOffset := 100, last := lastParam days }
             ++ source { pageLimit := 100, pageOffset := 200, last := lastParam days })) := by
      rw [fetch_feedback_notes]
      rw [show k + 3 = (k + 2) + 1 from rfl]
      rw [fetchPages_go source days (k + 2) 0 (by rw [hp0]; omega)]
      rw [show (0 : Nat) + 100 = 100 from rfl]
      rw [show k + 2 = (k + 1) + 1 from rfl]
      rw [fetchPages_go source days (k + 1) 100 (by rw [hp1]; omega)]
      rw [show (100 : Nat) + 100 = 200 from rfl]
      rw [fetchPages_stop source days k 200 (by rw [hp2]; omega)]
    refine ⟨hmain, ?_⟩
    rw [hmain]
    simp only [List.length_append, hp0, hp1, hp2]
  · intro days fuel source h1 hp0
    obtain ⟨k, rfl⟩ : ∃ k, fuel = k + 1 := ⟨fuel - 1, by omega⟩
    rw [fetch_feedback_notes]
    exact fetchPages_stop source days k 0 hp0

/-- A placeholder note used by the concrete pagination sources. -/
def demoNote : Note := { content := none, title := none }

/-- A source with pages of sizes 100, 100, 37 at offsets 0, 100, 200. -/
def demoSourceA : FetchParams → List Note := fun p =>
  if p.pageOffset = 0 then List.replicate 100 demoNote
  else if p.pageOffset = 100 then List.replicate 100 demoNote
  else if p.pageOffset = 200 then List.replicate 37 demoNote
  else []

/-- A source that is empty from the start. -/
def demoSourceB : FetchParams → List Note := fun _ => []

/-- Witness for C3 at the two concrete sources. -/
theorem fetch_pagination_witness :
    (fetch_feedback_notes demoSourceA 14 3).2.length = 237 ∧
    fetch_feedback_notes demoSourceB 14 1 =
      ([{ pageLimit := 100, pageOffset := 0, last := lastParam 14 }],
       demoSourceB { pageLimit := 100, pageOffset := 0, last := lastParam 14 }) :=
  ⟨(fetch_pagination.1 14 3 demoSourceA (by omega)
      (by simp [demoSourceA]) (by simp [demoSourceA]) (by simp [demoSourceA])).2,
   fetch_pagination.2 14 1 demoSourceB (by omega) (by simp [demoSourceB])⟩

/-- The external calls the run can make, plus its log lines. -/
inductive Effect where
  | httpGet : FetchParams → Effect
  | chatCompletion : List Char → Effect
  | chatPostMessage : Option String → List Block → Effect
  | logInfo : List Char → Effect
  | logWarn : List Char → Effect
  | logError : List Char → Effect
deriving Repr, DecidableEq

/-- post_analysis_to_slack: build the blocks, attempt one
chat_postMessage call, and on a provider-reported error catch it and log
the error detail; in both cases the function returns normally.  The
provider outcome is passed in as an abstract result. -/
def post_analysis_to_slack (channel_id : Option String) (analysis_text : List Char)
    (result : Except (List Char) Unit) : List Effect :=
  let blocks := split_text_for_blocks 2900 analysis_text
  match result with
  | Except.ok _ =>
    [Effect.chatPostMessage channel_id blocks,
     Effect.logInfo ("Posted formatted trend analysis to Slack channel ".toList)]
  | Except.error e =>
    [Effect.chatPostMessage channel_id blocks,
     Effect.logError ("Failed to post to Slack: ".toList ++ e)]

/-- analyze_trends_with_gpt: one completion call on the prepared prompt;
the model is abstract. -/
def analyze_trends_with_gpt (gpt : List Char → List Char) (notes : List Note) :
    List Effect × List Char :=
  let prompt := prepare_analysis_prompt notes
  ([Effect.chatCompletion prompt], gpt prompt)

/-- main: fetch, and if no notes were found log a warning and return
(still a successful exit); otherwise summarize and post.  The Boolean is
the success of the run (fetch and summarization are modelled on their
success path; the Slack outcome is the abstract result). -/
def runMain (source : FetchParams → List Note) (gpt : List Char → List Char)
    (slackResult : Except (List Char) Unit) (channel : Option String) (fuel : Nat) :
    List Effect × Bool :=
  let fetched := fetch_feedback_notes source 14 fuel
  let fetchEffects := fetched.1.map Effect.httpGet
  if fetched.2.isEmpty then
    (fetchEffects ++ [Effect.logWarn ("No feedback notes found for analysis. Exiting.".toList)],
     true)
  else
    let ga := analyze_trends_with_gpt gpt fetched.2
    (fetchEffects ++ ga.1 ++ post_analysis_to_slack channel ga.2 slackResult, true)

def isCompletionCall : Effect → Bool
  | Effect.chatCompletion _ => true
  | _ => false

def isPostCall : Effect → Bool
  | Effect.chatPostMessage _ _ => true
  | _ => false

/-- Claim C7: when the fetch phase returns zero notes the run makes no
summarization call and no notification call, logs the condition, and
exits successfully. -/
theorem main_empty_batch_short_circuit (source : FetchParams → List Note)
    (gpt : List Char → List Char) (slackResult : Except (List Char) Unit)
    (channel : Option String) (fuel : Nat)
    (h : (fetch_feedback_notes source 14 fuel).2 = []) :
    (runMain source gpt slackResult channel fuel).2 = true ∧
    Effect.logWarn ("No feedback notes found for analysis. Exiting.".toList)
      ∈ (runMain source gpt slackResult channel fuel).1 ∧
    ∀ e ∈ (runMain source gpt slackResult channel fuel).1,
      isCompletionCall e = false ∧ isPostCall e = false := by
  have hemp : (fetch_feedback_notes source 14 fuel).2.isEmpty = true := by
    rw [h]; rfl
  refine ⟨?_, ?_, ?_⟩
  · simp only [runMain, hemp, if_true]
  · simp only [runMain, hemp, if_true]
    exact List.mem_append_right _ (by simp)
  · intro e he
    simp only [runMain, hemp, if_true] at he
    rw [List.mem_append] at he
    rcases he with he | he
    · rcases List.mem_map.mp he with ⟨p, _, rfl⟩
      exact ⟨rfl, rfl⟩
    · rw [List.mem_singleton] at he
      subst he
      exact ⟨rfl, rfl⟩

/-- An upstream source with no notes at all. -/
def emptySource : FetchParams → List Note := fun _ => []

/-- Witness for C7 on the empty source. -/
theorem main_empty_batch_short_circuit_witness :
    (runMain emptySource id (Except.ok ()) none 1).2 = true ∧
    Effect.logWarn ("No feedback notes found for analysis. Exiting.".toList)
      ∈ (runMain emptySource id (Except.ok ()) none 1).1 ∧
    ∀ e ∈ (runMain emptySource id (Except.ok ()) none 1).1,
      isCompletionCall e = false ∧ isPostCall e = false :=
  main_empty_batch_short_circuit emptySource id (Except.ok ()) none 1 rfl

/-- Claim C8: a provider-reported error during the notification post is
caught: the post is attempted, the error detail is logged, the function
returns its effect list normally, and the success of the run is the same
as on the no-error path. -/
theorem slack_error_isolation :
    (∀ (channel : Option String) (analysis_text e : List Char),
      post_analysis_to_slack channel analysis_text (Except.error e)
        = [Effect.chatPostMessage channel (split_text_for_blocks 2900 analysis_text),
           Effect.logError ("Failed to post to Slack: ".toList ++ e)]) ∧
    (∀ (source : FetchParams → List Note) (gpt : List Char → List Char)
        (channel : Option String) (fuel : Nat) (e : List Char),
      (runMain source gpt (Except.error e) channel fuel).2 = true ∧
      (runMain source gpt (Except.error e) channel fuel).2
        = (runMain source gpt (Except.ok ()) channel fuel).2) := by
  refine ⟨fun channel analysis e => rfl, ?_⟩
  intro source gpt channel fuel e
  constructor <;> by_cases h : (fetch_feedback_notes source 14 fuel).2.isEmpty <;>
    simp [runMain, h]
